import Mathlib

/-!
Shallow embedding of the codecrafters-sqlite-go repository (Go sources under
src/app): varint.go, schema.go, btree.go and the record/column decoders of
main.go, together with proofs about them.

Modelling conventions:
* a byte buffer is a `List Nat` of byte values; Go slice expressions that can
  panic (index or slice out of range) are modelled with `Option`, `none`
  standing for the runtime panic;
* `binary.Read` with a big-endian integer target is modelled by `beNat` over
  the exact bytes read (it leaves the target 0 when fewer bytes are available
  than the target needs, which is also modelled);
* the database file is a map `db : Nat → Option (List Nat)` from 1-based page
  number to the page's bytes, modelling a `ReadAt` of `pageSize` bytes at
  offset `(pageNum-1)*pageSize`; `none` models a read error;
* recursion over child page numbers is given explicit fuel; running out of
  fuel models the non-terminating/stack-overflowing executions that the Go
  recursion would have on cyclic page graphs, as `none`;
* Go closures that mutate captured state (the row processor printing lines)
  are modelled by threading the state explicitly through the traversal.
-/

/-- Big-endian composition of a list of byte values, as `binary.Read` with a
big-endian unsigned target computes it. -/
def beNat (l : List Nat) : Nat := l.foldl (fun acc b => acc * 256 + b) 0

/-- Go slice expression `page[off : off+n]`: `some` of the bytes when the
bounds are inside the buffer, `none` for the out-of-range panic. -/
def sliceN (page : List Nat) (off n : Nat) : Option (List Nat) :=
  if off + n ≤ page.length then some ((page.drop off).take n) else none

/-- Loop body of `readVarint` (varint.go lines 6-22): `n` is the number of
remaining iterations (9 at entry), `i` the Go loop index, `result` the
accumulator. The `n = 0` fallthrough mirrors the unreachable final
`return result, 9` of the source. -/
def rvLoop (data : List Nat) : Nat → Nat → Nat → Nat × Nat
  | 0, _, result => (result, 9)
  | n + 1, i, result =>
    match data.get? i with
    | none => (0, 0)
    | some b =>
      if i == 8 then ((result <<< 8) ||| b, i + 1)
      else
        let r := (result <<< 7) ||| (b &&& 127)
        if b &&& 128 == 0 then (r, i + 1) else rvLoop data n (i + 1) r

/-- `readVarint` (varint.go lines 4-24): value and number of bytes consumed.
No `% 2^64` is needed: at most 8·7+8 = 64 bits are ever accumulated, so the
Go `uint64` arithmetic never wraps. -/
def readVarint (data : List Nat) : Nat × Nat := rvLoop data 9 0 0

/-- Auxiliary: `b &&& 128 ≠ 0` is the source's test for a set continuation
bit, `getD` reads the byte the loop reads. -/
def highBitSet (b : Nat) : Prop := b &&& 128 ≠ 0

instance (b : Nat) : Decidable (highBitSet b) := by
  unfold highBitSet; infer_instance

theorem getD_of_get? {l : List Nat} {i b : Nat} (h : l.get? i = some b) :
    l.getD i 0 = b := by
  rw [List.getD_eq_getElem?_getD, ← List.get?_eq_getElem?, h]; rfl

theorem lt_length_of_get? {l : List Nat} {i b : Nat} (h : l.get? i = some b) :
    i < l.length := by
  rw [List.get?_eq_getElem?] at h
  exact (List.getElem?_eq_some_iff.mp h).1

theorem rvLoop_spec (data : List Nat) : ∀ n i r, i + n = 9 → i ≤ 8 →
    (rvLoop data n i r = (0, 0) ∧ data.length < 9 ∧
      (∀ j, i ≤ j → j < data.length → highBitSet (data.getD j 0)))
    ∨ ((i < (rvLoop data n i r).2 ∧ (rvLoop data n i r).2 ≤ 9 ∧
        (rvLoop data n i r).2 ≤ data.length) ∧
       ¬(data.length < 9 ∧ ∀ j, i ≤ j → j < data.length → highBitSet (data.getD j 0))) := by
  intro n
  induction n with
  | zero => intro i r h hle; omega
  | succ n ih =>
    intro i r h hle
    rw [rvLoop]
    cases hg : data.get? i with
    | none =>
      left
      have hlen : data.length ≤ i := List.get?_eq_none.mp hg
      refine ⟨rfl, by omega, ?_⟩
      intro j hij hj; omega
    | some b =>
      have hilt : i < data.length := lt_length_of_get? hg
      by_cases h8 : i = 8
      · subst h8
        simp only [beq_self_eq_true, if_true]
        right
        constructor
        · exact ⟨by omega, by omega, by omega⟩
        · rintro ⟨hl, -⟩; omega
      · have : (i == 8) = false := by simp [h8]
        rw [this]
        simp only [Bool.false_eq_true, if_false]
        by_cases hz : b &&& 128 == 0
        · rw [if_pos hz]
          right
          constructor
          · exact ⟨by omega, by omega, by omega⟩
          · rintro ⟨-, hall⟩
            have := hall i (le_refl i) hilt
            rw [getD_of_get? hg] at this
            exact this (by simpa using hz)
        · rw [if_neg hz]
          have hb : highBitSet b := by
            intro hc; exact hz (by simpa using hc)
          have hgd : data.getD i 0 = b := getD_of_get? hg
          rcases ih (i + 1) ((r <<< 7) ||| (b &&& 127)) (by omega) (by omega) with
            ⟨he, hl, hall⟩ | ⟨⟨h1, h2, h3⟩, hneg⟩
          · left
            refine ⟨he, hl, ?_⟩
            intro j hij hj
            rcases Nat.eq_or_lt_of_le hij with rfl | hlt
            · rwa [hgd]
            · exact hall j (by omega) hj
          · right
            refine ⟨⟨by omega, h2, h3⟩, ?_⟩
            rintro ⟨hl, hall2⟩
            exact hneg ⟨hl, fun j hij hj => hall2 j (by omega) hj⟩

/-- C10: implicit totality of varint decoding. For every byte slice the model
of `readVarint` consumes between 0 and 9 bytes, never more than the slice
holds; it consumes 0 (returning value 0) exactly when the slice is shorter
than 9 bytes and every byte has its high (continuation) bit set — including
the empty slice — and otherwise consumes at least 1 byte. -/
theorem readVarint_total (data : List Nat) :
    (readVarint data).2 ≤ 9 ∧ (readVarint data).2 ≤ data.length ∧
    ((readVarint data).2 = 0 ↔
      (data.length < 9 ∧ ∀ b ∈ data, highBitSet b)) ∧
    ((readVarint data).2 = 0 → (readVarint data).1 = 0) ∧
    (¬(data.length < 9 ∧ ∀ b ∈ data, highBitSet b) → 1 ≤ (readVarint data).2) := by
  have hmem : (∀ j, 0 ≤ j → j < data.length → highBitSet (data.getD j 0)) ↔
      (∀ b ∈ data, highBitSet b) := by
    constructor
    · intro h b hb
      rcases List.mem_iff_getElem.1 hb with ⟨j, hj, rfl⟩
      have := h j (by omega) hj
      rwa [List.getD_eq_getElem data 0 hj] at this
    · intro h j _ hj
      rw [List.getD_eq_getElem data 0 hj]
      exact h _ (List.getElem_mem hj)
  rcases rvLoop_spec data 9 0 0 rfl (by omega) with ⟨he, hl, hall⟩ | ⟨⟨h1, h2, h3⟩, hneg⟩
  · unfold readVarint
    rw [he]
    exact ⟨by simp, by simp, ⟨fun _ => ⟨hl, hmem.1 hall⟩, fun _ => rfl⟩, fun _ => rfl,
      fun hc => absurd ⟨hl, hmem.1 hall⟩ hc⟩
  · unfold readVarint
    refine ⟨h2, h3, ?_, ?_, fun _ => h1⟩
    · constructor
      · intro h0; omega
      · intro ⟨hl, hall⟩
        exact absurd ⟨hl, fun j hij hj => hmem.2 hall j hij hj⟩ hneg
    · intro h0; omega

/-- C5 (code evaluation): on a truncated buffer — a single byte with the high
bit set — `readVarint` silently returns `(0, 0)` instead of a reported
`TruncatedInput` error; a full 9-byte varint consumes 9 bytes and ORs in all
8 bits of the 9th byte; a 2-byte varint accumulates 7 bits per byte,
most-significant first. -/
theorem readVarint_truncated_silent :
    readVarint [128] = (0, 0) ∧
    readVarint [255, 255, 255, 255, 255, 255, 255, 255, 255] = (2 ^ 64 - 1, 9) ∧
    readVarint [135, 64] = (7 * 128 + 64, 2) := by
  refine ⟨by decide, by decide, by decide⟩

/-- `getSerialTypeSize` (schema.go lines 142-169): byte width of a serial
type. The reserved codes 10 and 11 fall through to the final `return 0`. -/
def getSerialTypeSize (serialType : Nat) : Nat :=
  if serialType = 0 then 0
  else if serialType = 1 then 1
  else if serialType = 2 then 2
  else if serialType = 3 then 3
  else if serialType = 4 then 4
  else if serialType = 5 then 6
  else if serialType = 6 then 8
  else if serialType = 7 then 8
  else if serialType = 8 ∨ serialType = 9 then 0
  else if 12 ≤ serialType ∧ serialType % 2 = 0 then (serialType - 12) / 2
  else if 13 ≤ serialType ∧ serialType % 2 = 1 then (serialType - 13) / 2
  else 0

/-- Serial-type width table of spec §4.2, stated from the spec's words:
`none` for the reserved codes 10 and 11, which the spec says must fail with
`FormatError`. -/
def specSerialTypeSize (n : Nat) : Option Nat :=
  if n = 0 then some 0
  else if n = 1 then some 1
  else if n = 2 then some 2
  else if n = 3 then some 3
  else if n = 4 then some 4
  else if n = 5 then some 6
  else if n = 6 then some 8
  else if n = 7 then some 8
  else if n = 8 then some 0
  else if n = 9 then some 0
  else if n = 10 ∨ n = 11 then none
  else if n % 2 = 0 then some ((n - 12) / 2)
  else some ((n - 13) / 2)

set_option maxRecDepth 4000 in
/-- C6 (code evaluation): `getSerialTypeSize` agrees with the §4.2 table on
every defined code (generally for the blob/text families, and checked on all
codes below 300), but for the reserved codes 10 and 11 it silently yields 0
instead of failing with `FormatError`. -/
theorem getSerialTypeSize_reserved_silent :
    getSerialTypeSize 10 = 0 ∧ getSerialTypeSize 11 = 0 ∧
    (∀ n : Nat, getSerialTypeSize (2 * n + 12) = n ∧ getSerialTypeSize (2 * n + 13) = n) ∧
    ((List.range 300).all fun n =>
      match specSerialTypeSize n with
      | some s => getSerialTypeSize n == s
      | none => getSerialTypeSize n == 0) = true := by
  refine ⟨by decide, by decide, ?_, by decide⟩
  intro n
  constructor
  · unfold getSerialTypeSize
    iterate 9 rw [if_neg (by omega)]
    rw [if_pos (by omega)]
    omega
  · unfold getSerialTypeSize
    iterate 10 rw [if_neg (by omega)]
    rw [if_pos (by omega)]
    omega

theorem lor_shift_add (k : Nat) : ∀ a b : Nat, b < 2 ^ k → (a <<< k) ||| b = a * 2 ^ k + b := by
  induction k with
  | zero =>
    intro a b hb
    have hb0 : b = 0 := by omega
    subst hb0
    simp [Nat.shiftLeft_eq]
  | succ k ih =>
    intro a b hb
    have hb2 : b / 2 < 2 ^ k := by
      have : 2 ^ (k + 1) = 2 ^ k * 2 := by rw [pow_succ]
      omega
    have hx : a <<< (k + 1) = 2 * (a <<< k) := by
      rw [Nat.shiftLeft_eq, Nat.shiftLeft_eq, pow_succ]; ring
    have hbit : (2 * (a <<< k)) ||| b = 2 * ((a <<< k) ||| (b / 2)) + b % 2 := by
      conv_lhs => rw [← Nat.bit_decomp b]
      rw [show 2 * (a <<< k) = Nat.bit false (a <<< k) from by simp [Nat.bit]]
      rw [Nat.lor_bit]
      cases hob : Nat.bodd b <;>
        simp [Nat.bit, Nat.div2_val, Nat.mod_two_of_bodd, hob]
    have h2 : a * 2 ^ (k + 1) = 2 * (a * 2 ^ k) := by rw [pow_succ]; ring
    rw [hx, hbit, ih a (b / 2) hb2, h2]
    omega

theorem lor_mul_add (a b k : Nat) (hb : b < 2 ^ k) : (a * 2 ^ k) ||| b = a * 2 ^ k + b := by
  have := lor_shift_add k a b hb
  rwa [Nat.shiftLeft_eq] at this

theorem and_two_pow_eq_zero_iff (u k : Nat) (h : u < 2 ^ (k + 1)) :
    (u &&& 2 ^ k = 0) ↔ u < 2 ^ k := by
  rw [Nat.and_two_pow, Nat.testBit_to_div_mod]
  have hpos : 0 < 2 ^ k := Nat.pos_pow_of_pos k (by norm_num)
  have hdiv : u / 2 ^ k < 2 := by
    apply Nat.div_lt_of_lt_mul
    calc u < 2 ^ (k + 1) := h
    _ = 2 ^ k * 2 := by rw [pow_succ]
  rcases Nat.lt_or_ge u (2 ^ k) with hlt | hge
  · have h0 : u / 2 ^ k = 0 := Nat.div_eq_of_lt hlt
    simp [h0, hlt]
  · have h1i : 1 ≤ u / 2 ^ k := (Nat.one_le_div_iff hpos).mpr hge
    have h1 : u / 2 ^ k = 1 := by omega
    rw [h1]
    norm_num
    omega

/-- Reinterpretation of a `w`-byte unsigned big-endian value as the signed
two's-complement integer of the same width, sign-extended: this is what Go's
`binary.Read` into an `int16`/`int32`/`int64` target and the `int8` cast
mean semantically. -/
def twosComp (w : Nat) (u : Nat) : Int :=
  if u < 2 ^ (8 * w - 1) then (u : Int) else (u : Int) - 2 ^ (8 * w)

/-- Go's `string(data)` on raw bytes: each byte becomes the character with
that code point (injective below 256, so equality of such strings is
equality of the byte lists). -/
def stringOfBytes (l : List Nat) : String := String.mk (l.map Char.ofNat)

/-- Rendering of `fmt.Sprintf("%f", float64)` from the raw IEEE-754 bits: the
floating-point formatting itself is outside this model and no claim depends
on it; only the bits it is applied to are tracked. -/
def floatRender (bits : Nat) : String := "float:" ++ toString bits

/-- `readColumnValue` (schema.go lines 172-227): decode one column value to
its textual form. `none` models the index-out-of-range panic of the direct
`data[i]` accesses in the width-1/3/6-byte branches; the `binary.Read`
branches (widths 2, 4, 8) leave the value 0 when the buffer is short, since
the source ignores that error. The width-3 and width-6 branches keep the
source's shift/or composition and model `val |= ^0xFFFFFF` (an `int32`/
`int64` OR setting all bits above the sign bit) as subtraction of the width's
modulus, which is its value on a non-negative `val` with the sign bit set. -/
def readColumnValue (data : List Nat) (serialType : Nat) : Option String :=
  if serialType = 0 then some ""
  else if serialType = 1 then
    (data.get? 0).map fun b =>
      let v : Nat := b % 256
      toString (if v < 128 then (v : Int) else (v : Int) - 256)
  else if serialType = 2 then
    some (toString (if 2 ≤ data.length then twosComp 2 (beNat (data.take 2)) else 0))
  else if serialType = 3 then
    match data.get? 0, data.get? 1, data.get? 2 with
    | some b0, some b1, some b2 =>
      let val := (b0 <<< 16) ||| (b1 <<< 8) ||| b2
      some (toString (if val &&& 0x800000 ≠ 0 then (val : Int) - 0x1000000 else (val : Int)))
    | _, _, _ => none
  else if serialType = 4 then
    some (toString (if 4 ≤ data.length then twosComp 4 (beNat (data.take 4)) else 0))
  else if serialType = 5 then
    match data.get? 0, data.get? 1, data.get? 2, data.get? 3, data.get? 4, data.get? 5 with
    | some b0, some b1, some b2, some b3, some b4, some b5 =>
      let val := (b0 <<< 40) ||| (b1 <<< 32) ||| (b2 <<< 24) ||| (b3 <<< 16) ||| (b4 <<< 8) ||| b5
      some (toString (if val &&& 0x800000000000 ≠ 0 then
        (val : Int) - 0x1000000000000 else (val : Int)))
    | _, _, _, _, _, _ => none
  else if serialType = 6 then
    some (toString (if 8 ≤ data.length then twosComp 8 (beNat (data.take 8)) else 0))
  else if serialType = 7 then
    some (floatRender (if 8 ≤ data.length then beNat (data.take 8) else 0))
  else if serialType = 8 then some "0"
  else if serialType = 9 then some "1"
  else if 12 ≤ serialType ∧ serialType % 2 = 0 then some (stringOfBytes data)
  else if 13 ≤ serialType ∧ serialType % 2 = 1 then some (stringOfBytes data)
  else some ""

theorem shl8 (b : Nat) : b <<< 8 = b * 256 := by rw [Nat.shiftLeft_eq]

theorem or3_bytes (b0 b1 b2 : Nat) (h1 : b1 < 256) (h2 : b2 < 256) :
    (b0 <<< 16) ||| (b1 <<< 8) ||| b2 = (b0 * 256 + b1) * 256 + b2 := by
  have e1 : (b0 <<< 16) ||| (b1 <<< 8) = b0 * 65536 + b1 * 256 := by
    rw [shl8, Nat.shiftLeft_eq,
      show (2 : Nat) ^ 16 = 65536 from by norm_num]
    rw [show b0 * 65536 = b0 * 2 ^ 16 from by norm_num,
      lor_mul_add b0 (b1 * 256) 16 (by norm_num; omega)]
  have e2 : (b0 * 65536 + b1 * 256) ||| b2 = b0 * 65536 + b1 * 256 + b2 := by
    rw [show b0 * 65536 + b1 * 256 = (b0 * 256 + b1) * 2 ^ 8 from by ring_nf,
      lor_mul_add (b0 * 256 + b1) b2 8 (by norm_num; omega)]
  rw [e1, e2]; ring

set_option maxRecDepth 4000 in
example (b : Nat) (hb : b < 256) :
    readColumnValue [b] 1 = some (toString (twosComp 1 b)) := by
  unfold readColumnValue twosComp
  norm_num
  congr 1
  rcases Nat.lt_or_ge b 128 with h | h
  · rw [if_pos (show b % 256 < 128 from by omega), if_pos h]
    omega
  · rw [if_neg (show ¬ b % 256 < 128 from by omega), if_neg (by omega)]
    omega

theorem or6_bytes (b0 b1 b2 b3 b4 b5 : Nat) (h1 : b1 < 256) (h2 : b2 < 256)
    (h3 : b3 < 256) (h4 : b4 < 256) (h5 : b5 < 256) :
    (b0 <<< 40) ||| (b1 <<< 32) ||| (b2 <<< 24) ||| (b3 <<< 16) ||| (b4 <<< 8) ||| b5 =
      ((((b0 * 256 + b1) * 256 + b2) * 256 + b3) * 256 + b4) * 256 + b5 := by
  have s1 : (b0 <<< 40) ||| (b1 <<< 32) = b0 * 1099511627776 + b1 * 4294967296 := by
    rw [show b1 <<< 32 = b1 * 4294967296 from by rw [Nat.shiftLeft_eq],
      show b0 <<< 40 = b0 * 2 ^ 40 from by rw [Nat.shiftLeft_eq],
      lor_mul_add b0 (b1 * 4294967296) 40 (by norm_num; omega)]
    norm_num
  have s2 : (b0 * 1099511627776 + b1 * 4294967296) ||| (b2 <<< 24) =
      b0 * 1099511627776 + b1 * 4294967296 + b2 * 16777216 := by
    rw [show b2 <<< 24 = b2 * 16777216 from by rw [Nat.shiftLeft_eq],
      show b0 * 1099511627776 + b1 * 4294967296 = (b0 * 256 + b1) * 2 ^ 32 from by ring_nf,
      lor_mul_add (b0 * 256 + b1) (b2 * 16777216) 32 (by norm_num; omega)]
  have s3 : (b0 * 1099511627776 + b1 * 4294967296 + b2 * 16777216) ||| (b3 <<< 16) =
      b0 * 1099511627776 + b1 * 4294967296 + b2 * 16777216 + b3 * 65536 := by
    rw [show b3 <<< 16 = b3 * 65536 from by rw [Nat.shiftLeft_eq],
      show b0 * 1099511627776 + b1 * 4294967296 + b2 * 16777216 =
        ((b0 * 256 + b1) * 256 + b2) * 2 ^ 24 from by ring_nf,
      lor_mul_add ((b0 * 256 + b1) * 256 + b2) (b3 * 65536) 24 (by norm_num; omega)]
  have s4 : (b0 * 1099511627776 + b1 * 4294967296 + b2 * 16777216 + b3 * 65536) |||
      (b4 <<< 8) =
      b0 * 1099511627776 + b1 * 4294967296 + b2 * 16777216 + b3 * 65536 + b4 * 256 := by
    rw [show b4 <<< 8 = b4 * 256 from by rw [Nat.shiftLeft_eq],
      show b0 * 1099511627776 + b1 * 4294967296 + b2 * 16777216 + b3 * 65536 =
        (((b0 * 256 + b1) * 256 + b2) * 256 + b3) * 2 ^ 16 from by ring_nf,
      lor_mul_add (((b0 * 256 + b1) * 256 + b2) * 256 + b3) (b4 * 256) 16
        (by norm_num; omega)]
  have s5 : (b0 * 1099511627776 + b1 * 4294967296 + b2 * 16777216 + b3 * 65536 + b4 * 256)
      ||| b5 =
      b0 * 1099511627776 + b1 * 4294967296 + b2 * 16777216 + b3 * 65536 + b4 * 256 + b5 := by
    rw [show b0 * 1099511627776 + b1 * 4294967296 + b2 * 16777216 + b3 * 65536 + b4 * 256 =
        ((((b0 * 256 + b1) * 256 + b2) * 256 + b3) * 256 + b4) * 2 ^ 8 from by ring_nf,
      lor_mul_add ((((b0 * 256 + b1) * 256 + b2) * 256 + b3) * 256 + b4) b5 8
        (by norm_num; omega)]
  rw [s1, s2, s3, s4, s5]
  ring

set_option maxRecDepth 4000 in
/-- C7: integer column decoding is big-endian two's-complement with sign
extension to 64 bits for every stored width 1, 2, 3, 4, 6 and 8 (serial
types 1-6): on a buffer of exactly the width of the serial type, made of
byte values, `readColumnValue` renders exactly the sign-extended big-endian
two's-complement value of the bytes. -/
theorem readColumnValue_signed (st : Nat)
    (hst : st = 1 ∨ st = 2 ∨ st = 3 ∨ st = 4 ∨ st = 5 ∨ st = 6)
    (data : List Nat) (hlen : data.length = getSerialTypeSize st)
    (hbytes : ∀ b ∈ data, b < 256) :
    readColumnValue data st =
      some (toString (twosComp (getSerialTypeSize st) (beNat data))) := by
  rcases hst with rfl | rfl | rfl | rfl | rfl | rfl
  · norm_num [getSerialTypeSize] at hlen ⊢
    rcases data with _ | ⟨b, rest⟩
    · simp at hlen
    · rw [List.length_cons] at hlen
      have hrest : rest = [] := by
        rw [← List.length_eq_zero]; omega
      subst hrest
      have hb : b < 256 := hbytes b (by simp)
      unfold readColumnValue twosComp
      norm_num
      have hbe : beNat [b] = b := by simp [beNat]
      rw [hbe]
      congr 1
      rcases Nat.lt_or_ge b 128 with h | h
      · rw [if_pos (show b % 256 < 128 from by omega), if_pos h]
        omega
      · rw [if_neg (show ¬ b % 256 < 128 from by omega), if_neg (by omega)]
        omega
  · norm_num [getSerialTypeSize] at hlen ⊢
    unfold readColumnValue twosComp
    norm_num [hlen]
    rw [List.take_of_length_le (le_of_eq hlen)]
  · norm_num [getSerialTypeSize] at hlen ⊢
    rcases data with _ | ⟨b0, _ | ⟨b1, _ | ⟨b2, rest⟩⟩⟩ <;> simp at hlen
    subst hlen
    have h0 : b0 < 256 := hbytes b0 (by simp)
    have h1 : b1 < 256 := hbytes b1 (by simp)
    have h2 : b2 < 256 := hbytes b2 (by simp)
    have hor := or3_bytes b0 b1 b2 h1 h2
    have hbe : beNat [b0, b1, b2] = (b0 * 256 + b1) * 256 + b2 := by
      simp [beNat]
    unfold readColumnValue twosComp
    norm_num [hor, hbe]
    have hu : (b0 * 256 + b1) * 256 + b2 < 2 ^ 24 := by norm_num; omega
    have hiff := and_two_pow_eq_zero_iff ((b0 * 256 + b1) * 256 + b2) 23 (by norm_num; omega)
    norm_num at hiff
    congr 1
    simp only [hiff]
  · norm_num [getSerialTypeSize] at hlen ⊢
    unfold readColumnValue twosComp
    norm_num [hlen]
    rw [List.take_of_length_le (le_of_eq hlen)]
  · norm_num [getSerialTypeSize] at hlen ⊢
    rcases data with _ | ⟨b0, _ | ⟨b1, _ | ⟨b2, _ | ⟨b3, _ | ⟨b4, _ | ⟨b5, rest⟩⟩⟩⟩⟩⟩ <;>
      simp at hlen
    subst hlen
    have h0 : b0 < 256 := hbytes b0 (by simp)
    have h1 : b1 < 256 := hbytes b1 (by simp)
    have h2 : b2 < 256 := hbytes b2 (by simp)
    have h3 : b3 < 256 := hbytes b3 (by simp)
    have h4 : b4 < 256 := hbytes b4 (by simp)
    have h5 : b5 < 256 := hbytes b5 (by simp)
    have hor := or6_bytes b0 b1 b2 b3 b4 b5 h1 h2 h3 h4 h5
    have hbe : beNat [b0, b1, b2, b3, b4, b5] =
        ((((b0 * 256 + b1) * 256 + b2) * 256 + b3) * 256 + b4) * 256 + b5 := by
      simp [beNat]
    unfold readColumnValue twosComp
    norm_num [hor, hbe]
    have hiff := and_two_pow_eq_zero_iff
      (((((b0 * 256 + b1) * 256 + b2) * 256 + b3) * 256 + b4) * 256 + b5) 47
      (by norm_num; omega)
    norm_num at hiff
    congr 1
    simp only [hiff]
  · norm_num [getSerialTypeSize] at hlen ⊢
    unfold readColumnValue twosComp
    norm_num [hlen]
    rw [List.take_of_length_le (le_of_eq hlen)]

/-- Witness for C7: byte `0xFF` with serial type 1 decodes to `-1`, bytes
`0x80 0x00` with serial type 2 decode to `-32768`. -/
theorem readColumnValue_signed_examples :
    readColumnValue [255] 1 = some "-1" ∧ readColumnValue [128, 0] 2 = some "-32768" := by
  constructor
  · rw [readColumnValue_signed 1 (by tauto) [255] (by decide) (by decide)]
    decide
  · rw [readColumnValue_signed 2 (by tauto) [128, 0] (by decide) (by decide)]
    decide

/-- Serial-type header loop of `parseRecord` (schema.go lines 245-254): reads
varints from `headerData` until it is exhausted, breaking when `readVarint`
consumes 0 bytes. The fuel starts at `headerData.length`, which bounds the
number of iterations since every non-breaking iteration consumes at least one
byte. -/
def readSerialTypesAux (headerData : List Nat) : Nat → Nat → List Nat → List Nat
  | 0, _, acc => acc.reverse
  | fuel + 1, hbr, acc =>
    if hbr < headerData.length then
      let sv := readVarint (headerData.drop hbr)
      if sv.2 = 0 then acc.reverse
      else readSerialTypesAux headerData fuel (hbr + sv.2) (sv.1 :: acc)
    else acc.reverse

def readSerialTypes (headerData : List Nat) : List Nat :=
  readSerialTypesAux headerData headerData.length 0 []

/-- Record-body loop of `parseRecord` (schema.go lines 257-263): one decoded
value per serial type, consuming `getSerialTypeSize` bytes each; `none`
models the slice-out-of-range panic of `cellData[offset : offset+colSize]`. -/
def bodyLoop (body : List Nat) : List Nat → Nat → Option (List String)
  | [], _ => some []
  | st :: rest, offset =>
    let colSize := getSerialTypeSize st
    if offset + colSize ≤ body.length then
      match readColumnValue ((body.drop offset).take colSize) st with
      | none => none
      | some v =>
        match bodyLoop body rest (offset + colSize) with
        | none => none
        | some vs => some (v :: vs)
    else none

/-- `parseRecord` (schema.go lines 230-266): payload-length varint, rowid
varint, header-size varint, serial types, body. The source's only `return`
with an error value returns `nil`, so success is `some (rowid, values)` and
`none` models the panics of `cellData[bytesRead:headerSize]` and of the body
reads on malformed input — there is no reported decode error. -/
def parseRecord (cellData : List Nat) : Option (Nat × List String) :=
  let r1 := readVarint cellData
  let cd1 := cellData.drop r1.2
  let r2 := readVarint cd1
  let rowid := r2.1
  let cd2 := cd1.drop r2.2
  let r3 := readVarint cd2
  let headerSize := r3.1
  if r3.2 ≤ headerSize ∧ headerSize ≤ cd2.length then
    let headerData := (cd2.drop r3.2).take (headerSize - r3.2)
    let body := cd2.drop headerSize
    match bodyLoop body (readSerialTypes headerData) 0 with
    | none => none
    | some columnValues => some (rowid, columnValues)
  else none

/-- Cell-pointer-array read loop (schema.go lines 23-27 and the analogous
loops of btree.go): `n` pointers of 2 big-endian bytes each starting at
`base`, `none` for an out-of-range read. -/
def cellPtrsAux (page : List Nat) (base : Nat) : Nat → Nat → Option (List Nat)
  | 0, _ => some []
  | n + 1, i =>
    match sliceN page (base + 2 * i) 2 with
    | none => none
    | some pb =>
      match cellPtrsAux page base n (i + 1) with
      | none => none
      | some rest => some (beNat pb :: rest)

/-- Serial-type header loop of `findTableInfo` (schema.go lines 46-53).
Unlike `parseRecord`, this loop has no break when `readVarint` consumes 0
bytes, so on such input the Go loop never terminates; the fuel starts at
`headerSize` (enough for every terminating run, since each iteration must
consume at least one byte to finish) and exhausting it with the loop
condition still true models the hang as `none`. -/
def ftiHeaderLoop : Nat → List Nat → Nat → Nat → List Nat → Option (List Nat × List Nat)
  | 0, cellData, hbr, headerSize, acc =>
    if hbr < headerSize then none else some (acc.reverse, cellData)
  | fuel + 1, cellData, hbr, headerSize, acc =>
    if hbr < headerSize then
      let sv := readVarint cellData
      ftiHeaderLoop fuel (cellData.drop sv.2) (hbr + sv.2) headerSize (sv.1 :: acc)
    else some (acc.reverse, cellData)

/-- Bytes-to-string conversion used for `tbl_name`/`sql` and the comparison
with the requested name (schema.go lines 69-82). -/
def findTableInfoCell (page : List Nat) (tableName : String) (ptr : Nat) :
    Option (Option (Nat × String)) :=
  if ptr ≤ page.length then
    let cellData := page.drop ptr
    let r1 := readVarint cellData
    let cd1 := cellData.drop r1.2
    let r2 := readVarint cd1
    let cd2 := cd1.drop r2.2
    let r3 := readVarint cd2
    let headerSize := r3.1
    let cd3 := cd2.drop r3.2
    match ftiHeaderLoop headerSize cd3 r3.2 headerSize [] with
    | none => none
    | some st =>
      match st.1.get? 0, st.1.get? 1, st.1.get? 2 with
      | some st0, some st1, some st2 =>
        let cd4 := st.2
        let typeSize := getSerialTypeSize st0
        if typeSize ≤ cd4.length then
          let cd5 := cd4.drop typeSize
          let nameSize := getSerialTypeSize st1
          if nameSize ≤ cd5.length then
            let cd6 := cd5.drop nameSize
            let tblNameSize := getSerialTypeSize st2
            if tblNameSize ≤ cd6.length then
              let tblName := stringOfBytes (cd6.take tblNameSize)
              let cd7 := cd6.drop tblNameSize
              if tblName = tableName then
                match cd7.get? 0 with
                | none => none
                | some rb =>
                  let cd8 := cd7.drop 1
                  match st.1.get? 4 with
                  | none => none
                  | some st4 =>
                    let sqlSize := getSerialTypeSize st4
                    if sqlSize ≤ cd8.length then
                      some (some (rb, stringOfBytes (cd8.take sqlSize)))
                    else none
              else some none
            else none
          else none
        else none
      | _, _, _ => none
  else none

/-- Cell loop of `findTableInfo` (schema.go lines 30-87): first match wins,
fallthrough returns `(0, "")`. -/
def ftiLoop (page : List Nat) (tableName : String) : List Nat → Option (Nat × String)
  | [] => some (0, "")
  | ptr :: rest =>
    match findTableInfoCell page tableName ptr with
    | none => none
    | some (some res) => some res
    | some none => ftiLoop page tableName rest

/-- `findTableInfo` (schema.go lines 17-90): scans only the given page —
always page 1 of the file — with leaf-page offsets fixed for page 1 (cell
count at bytes 103-104, pointer array from byte 108); it never reads the
page-type byte and never descends child pages. The `rootpage` column is read
as a single byte (`int(cellData[0])`) whatever its serial type says. `none`
models an index-out-of-range panic or a hang of the header loop; `(0, "")`
is the not-found result `handleSQLQuery` tests for. -/
def findTableInfo (page : List Nat) (tableName : String) : Option (Nat × String) :=
  match sliceN page 103 2 with
  | none => none
  | some ccb =>
    match cellPtrsAux page 108 (beNat ccb) 0 with
    | none => none
    | some ptrs => ftiLoop page tableName ptrs

/-- Leaf-cell loop of `traverseBTree` (btree.go lines 95-108): for each cell
pointer index, read the 2-byte pointer (array base `headerOffset + 8`),
parse the record and invoke the processor; a `false` return stops this loop.
The processor's captured mutable state is threaded as `σ`; a `none` from
`proc` models a panic inside the closure. The source's `if err == nil` guard
never skips, since `parseRecord` only ever returns a `nil` error. -/
def leafLoop {σ : Type} (proc : σ → Nat → List String → Option (σ × Bool))
    (page : List Nat) (headerOffset : Nat) : List Nat → σ → Option σ
  | [], s => some s
  | i :: rest, s =>
    match sliceN page (headerOffset + 8 + 2 * i) 2 with
    | none => none
    | some pb =>
      let ptr := beNat pb
      if ptr ≤ page.length then
        match parseRecord (page.drop ptr) with
        | none => none
        | some rv =>
          match proc s rv.1 rv.2 with
          | none => none
          | some sb =>
            if sb.2 then leafLoop proc page headerOffset rest sb.1 else some sb.1
      else none

/-- Interior-cell child lookup (btree.go lines 117-124): the 2-byte cell
pointer at `headerOffset + 12 + 2*i`, then the cell's first 4 bytes as the
left-child page number. -/
def interiorChildAt (page : List Nat) (headerOffset i : Nat) : Option Nat :=
  match sliceN page (headerOffset + 12 + 2 * i) 2 with
  | none => none
  | some pb =>
    match sliceN page (beNat pb) 4 with
    | none => none
    | some cb => some (beNat cb)

/-- Interior-cell loop of `traverseBTree` (btree.go lines 117-128): recurse
into each left child in pointer-array order, threading the state. The stop
signal of a leaf deeper in the tree is not propagated: the recursive call
returns no indication, exactly as the Go call returns `void`. -/
def interiorLoop {σ : Type} (recur : Nat → σ → Option σ)
    (page : List Nat) (headerOffset : Nat) : List Nat → σ → Option σ
  | [], s => some s
  | i :: rest, s =>
    match interiorChildAt page headerOffset i with
    | none => none
    | some child =>
      match recur child s with
      | none => none
      | some s2 => interiorLoop recur page headerOffset rest s2

/-- `traverseBTree` (btree.go lines 75-133). The first argument of `proc` is
the processor closure's captured state (the printed lines for `selectRows`);
its result `Bool` is the continue/stop return of the Go `RowProcessor`. A
read error returns the state unchanged (the Go `return` on `err != nil`), an
unknown page type falls through visiting nothing, fuel exhaustion is `none`
(the unbounded Go recursion on a cyclic page graph). -/
def traverseBTree {σ : Type} (db : Nat → Option (List Nat))
    (proc : σ → Nat → List String → Option (σ × Bool)) : Nat → Nat → σ → Option σ
  | 0, _, _ => none
  | fuel + 1, pageNum, s =>
    match db pageNum with
    | none => some s
    | some page =>
      let headerOffset := if pageNum = 1 then 100 else 0
      match page.get? headerOffset with
      | none => none
      | some pageType =>
        match sliceN page (headerOffset + 3) 2 with
        | none => none
        | some ccb =>
          if pageType = 13 then
            leafLoop proc page headerOffset (List.range (beNat ccb)) s
          else if pageType = 5 then
            match sliceN page (headerOffset + 8) 4 with
            | none => none
            | some rmb =>
              match interiorLoop (fun c t => traverseBTree db proc fuel c t)
                  page headerOffset (List.range (beNat ccb)) s with
              | none => none
              | some s2 => traverseBTree db proc fuel (beNat rmb) s2
          else some s

/-- Interior-cell loop of `countRows` (btree.go lines 48-59): sum of the
child counts in pointer-array order. -/
def countLoop (recur : Nat → Option Nat) (page : List Nat) (headerOffset : Nat) :
    List Nat → Option Nat
  | [] => some 0
  | i :: rest =>
    match interiorChildAt page headerOffset i with
    | none => none
    | some child =>
      match recur child with
      | none => none
      | some c =>
        match countLoop recur page headerOffset rest with
        | none => none
        | some t => some (c + t)

/-- `countRows` (btree.go lines 17-68): a leaf page contributes its cell
count without touching any cell; a read error contributes 0 (the source's
`return 0` on `err != nil`), as does an unknown page type. -/
def countRows (db : Nat → Option (List Nat)) : Nat → Nat → Option Nat
  | 0, _ => none
  | fuel + 1, pageNum =>
    match db pageNum with
    | none => some 0
    | some page =>
      let headerOffset := if pageNum = 1 then 100 else 0
      match page.get? headerOffset with
      | none => none
      | some pageType =>
        match sliceN page (headerOffset + 3) 2 with
        | none => none
        | some ccb =>
          if pageType = 13 then some (beNat ccb)
          else if pageType = 5 then
            match sliceN page (headerOffset + 8) 4 with
            | none => none
            | some rmb =>
              match countLoop (fun c => countRows db fuel c) page headerOffset
                  (List.range (beNat ccb)) with
              | none => none
              | some t =>
                match countRows db fuel (beNat rmb) with
                | none => none
                | some r => some (t + r)
          else some 0

/-- Instrumentation of a pure `RowProcessor`: the state records every
invocation of the visitor in order, so `traverseVisits` returns the list of
rows the processor was invoked on. -/
def instrProc (proc : Nat → List String → Option Bool)
    (s : List (Nat × List String)) (rowid : Nat) (vals : List String) :
    Option (List (Nat × List String) × Bool) :=
  (proc rowid vals).map fun b => (s ++ [(rowid, vals)], b)

def traverseVisits (db : Nat → Option (List Nat)) (proc : Nat → List String → Option Bool)
    (fuel pageNum : Nat) : Option (List (Nat × List String)) :=
  traverseBTree db (instrProc proc) fuel pageNum []

/-- ASCII lowering of one character; models `strings.ToLower` on the ASCII
inputs the queries use. -/
def lowerChar (c : Char) : Char :=
  if 'A' ≤ c ∧ c ≤ 'Z' then Char.ofNat (c.toNat + 32) else c

def lowerL (l : List Char) : List Char := l.map lowerChar

/-- Does `hay` start with `needle`? First argument is the needle. -/
def startsWithL : List Char → List Char → Bool
  | [], _ => true
  | _ :: _, [] => false
  | a :: as, b :: bs => a == b && startsWithL as bs

/-- Substring containment, models `strings.Contains hay needle`. -/
def containsSubL : List Char → List Char → Bool
  | [], needle => needle.isEmpty
  | c :: t, needle => startsWithL needle (c :: t) || containsSubL t needle

/-- `isIntegerPrimaryKey` (schema.go lines 130-132): the lower-cased CREATE
TABLE text contains the literal substring `"<lower(name)> integer primary
key"`. -/
def isIntegerPrimaryKey (createTableSQL columnName : String) : Bool :=
  containsSubL (lowerL createTableSQL.toList)
    (lowerL columnName.toList ++ (" integer primary key").toList)

/-- Split on commas; models `strings.Split(s, ",")` (the empty string yields
one empty segment). -/
def splitOnCommaAux : List Char → List Char → List (List Char)
  | [], cur => [cur.reverse]
  | c :: t, cur =>
    if c = ',' then cur.reverse :: splitOnCommaAux t []
    else splitOnCommaAux t (c :: cur)

def splitOnComma (l : List Char) : List (List Char) := splitOnCommaAux l []

/-- Whitespace fields; models `strings.Fields` on the ASCII whitespace the
queries use. -/
def fieldsAux : List Char → List Char → List (List Char)
  | [], cur => if cur.isEmpty then [] else [cur.reverse]
  | c :: t, cur =>
    if c.isWhitespace then
      if cur.isEmpty then fieldsAux t [] else cur.reverse :: fieldsAux t []
    else fieldsAux t (c :: cur)

def fieldsL (l : List Char) : List (List Char) := fieldsAux l []

/-- Models `strings.TrimSpace`. -/
def trimL (l : List Char) : List Char :=
  ((l.dropWhile (·.isWhitespace)).reverse.dropWhile (·.isWhitespace)).reverse

/-- Models `strings.EqualFold` on ASCII: equality after lowering. -/
def eqFold (a b : List Char) : Bool := lowerL a == lowerL b

/-- Models `strings.Index s "("` for a single-character needle. -/
def firstIdxOf (l : List Char) (c : Char) : Option Nat := l.findIdx? (· == c)

/-- Models `strings.LastIndex s ")"` for a single-character needle. -/
def lastIdxOf (l : List Char) (c : Char) : Option Nat :=
  (firstIdxOf l.reverse c).map (fun i => l.length - 1 - i)

/-- Per-segment loop of `getColumnIndex` (schema.go lines 114-124): `i`
counts every comma-separated segment, including ones with no token. -/
def gciLoop : List (List Char) → List Char → Nat → Int
  | [], _, _ => -1
  | colDef :: rest, columnName, i =>
    match fieldsL (trimL colDef) with
    | [] => gciLoop rest columnName (i + 1)
    | colName :: _ =>
      if eqFold colName columnName then (i : Int) else gciLoop rest columnName (i + 1)

/-- `getColumnIndex` (schema.go lines 93-127): the text between the first
`(` and the last `)` split on commas, each segment's first whitespace token
compared case-insensitively; `-1` when not found or when a parenthesis is
missing. `none` models the panic of `createTableSQL[startIdx+1 : endIdx]`
when the last `)` precedes the first `(`. -/
def getColumnIndex (createTableSQL columnName : String) : Option Int :=
  let s := createTableSQL.toList
  match firstIdxOf s '(' with
  | none => some (-1)
  | some startIdx =>
    match lastIdxOf s ')' with
    | none => some (-1)
    | some endIdx =>
      if startIdx + 1 ≤ endIdx then
        some (gciLoop (splitOnComma ((s.drop (startIdx + 1)).take (endIdx - (startIdx + 1))))
          columnName.toList 0)
      else none

/-- Projection loop of the `selectRows` processor (btree.go lines 152-160):
requested columns in order, substituting the decimal rowid when the
INTEGER-PRIMARY-KEY flag of that projection position is set; `none` models
the index panics of `isPKColumn[i]` / `allColumnValues[colIndex]`. -/
def projectLoop (isPKColumn : List Bool) (rowid : Nat) (allVals : List String) :
    List Nat → Nat → Option (List String)
  | [], _ => some []
  | colIndex :: rest, i =>
    match isPKColumn.get? i with
    | none => none
    | some pk =>
      if pk then
        match projectLoop isPKColumn rowid allVals rest (i + 1) with
        | none => none
        | some vs => some (toString rowid :: vs)
      else
        match allVals.get? colIndex with
        | none => none
        | some v =>
          match projectLoop isPKColumn rowid allVals rest (i + 1) with
          | none => none
          | some vs => some (v :: vs)

/-- Row processor of `selectRows` (btree.go lines 143-165): the WHERE filter
compares the decoded predicate column textually and skips (returning
continue) on mismatch; otherwise one line is appended — the projected values
joined with `"|"` — and traversal continues. -/
def selectProc (columnIndices : List Nat) (isPKColumn : List Bool) (hasWhere : Bool)
    (whereColumnIndex : Nat) (whereValue : String)
    (s : List String) (rowid : Nat) (allColumnValues : List String) :
    Option (List String × Bool) :=
  if hasWhere then
    match allColumnValues.get? whereColumnIndex with
    | none => none
    | some v =>
      if v ≠ whereValue then some (s, true)
      else
        match projectLoop isPKColumn rowid allColumnValues columnIndices 0 with
        | none => none
        | some cv => some (s ++ [String.intercalate "|" cv], true)
  else
    match projectLoop isPKColumn rowid allColumnValues columnIndices 0 with
    | none => none
    | some cv => some (s ++ [String.intercalate "|" cv], true)

/-- `selectRows` (btree.go lines 136-168): computes the
INTEGER-PRIMARY-KEY flags from the column names, then traverses with the
printing processor; the returned list is everything printed, in order. -/
def selectRows (db : Nat → Option (List Nat)) (fuel rootpage : Nat)
    (columnIndices : List Nat) (columnNames : List String) (createTableSQL : String)
    (hasWhere : Bool) (whereColumnIndex : Nat) (whereValue : String) :
    Option (List String) :=
  let isPKColumn := columnNames.map (fun colName => isIntegerPrimaryKey createTableSQL colName)
  traverseBTree db (selectProc columnIndices isPKColumn hasWhere whereColumnIndex whereValue)
    fuel rootpage []

/-- Per-row rendering of the §4.9 query step, stated from the spec's words:
`none` is an abort (an out-of-range column index), `some none` a row
filtered out by the predicate, `some (some line)` one emitted line — the
projected columns in requested order, rowid substituted at rowid-alias
positions, joined by `"|"`. -/
def lineOfRow (columnIndices : List Nat) (isPKColumn : List Bool) (hasWhere : Bool)
    (whereColumnIndex : Nat) (whereValue : String) (rowid : Nat) (vals : List String) :
    Option (Option String) :=
  if hasWhere then
    match vals.get? whereColumnIndex with
    | none => none
    | some v =>
      if v ≠ whereValue then some none
      else (projectLoop isPKColumn rowid vals columnIndices 0).map
        (fun cv => some (String.intercalate "|" cv))
  else (projectLoop isPKColumn rowid vals columnIndices 0).map
    (fun cv => some (String.intercalate "|" cv))

/-- Leaf table page (page type 0x0d) holding one cell at offset 10 whose
record has rowid `r` and no columns; for use at page numbers other than 1. -/
def leafPage1 (r : Nat) : List Nat := [13, 0, 0, 0, 1, 0, 0, 0, 0, 10, 2, r, 1]

/-- Interior table page (page type 0x05) with one cell whose left child is
page 3 and rightmost pointer page 4. -/
def interiorRoot : List Nat := [5, 0, 0, 0, 1, 0, 0, 0, 0, 0, 0, 4, 0, 14, 0, 0, 0, 3]

/-- Two-level example tree: interior root at page 2, leaf children at pages 3
(rowid 1) and 4 (rowid 2). -/
def exDb : Nat → Option (List Nat) := fun n =>
  if n = 2 then some interiorRoot
  else if n = 3 then some (leafPage1 1)
  else if n = 4 then some (leafPage1 2)
  else none

/-- Single leaf page with two cells, rowids 1 and 2, no columns. -/
def leafPage2 : List Nat := [13, 0, 0, 0, 2, 0, 0, 0, 0, 12, 0, 15, 2, 1, 1, 2, 2, 1]

def dbLeaf2 : Nat → Option (List Nat) := fun n => if n = 3 then some leafPage2 else none

/-- Page of the (out-of-scope) index type 0x02. -/
def indexTypePage : List Nat := [2, 0, 0, 0, 5, 0, 0, 0, 0, 0]

/-- C3 (counterexample): with the constantly-false visitor, the visitor is
invoked on the row of page 3 — returning false — and then invoked again on
the row of the sibling leaf page 4: the stop signal is not propagated
through the interior page, contradicting the claim that no further cell
anywhere is visited. -/
theorem traverse_continues_after_stop :
    traverseVisits exDb (fun _ _ => some false) 3 2 = some [(1, []), (2, [])] := by
  decide

/-- C1 (code evaluation): a record whose header bytes are a truncated varint
(not an integral number of varints) parses with a `nil` error and zero
columns instead of failing with `FormatError`; `countRows` over an
unreadable root page and over an invalid page type (0x02) silently returns
0; `traverseBTree` over an unreadable root silently visits nothing — none of
these aborts the query. -/
theorem decode_failures_are_silent :
    parseRecord [2, 1, 3, 132, 129] = some (1, []) ∧
    countRows (fun _ => none) 1 2 = some 0 ∧
    countRows (fun n => if n = 2 then some indexTypePage else none) 1 2 = some 0 ∧
    traverseVisits (fun _ => none) (fun _ _ => some true) 1 2 = some [] := by
  refine ⟨by decide, by decide, by decide, by decide⟩

/-- Page 1 whose schema B-tree page is interior (type 0x05 at offset 100):
its child leaf would hold the schema rows, but `findTableInfo` reads it with
leaf offsets. -/
def interiorSchemaPage : List Nat :=
  List.replicate 100 0 ++
    [5, 0, 0, 0, 1, 0, 0, 0, 0, 0, 0, 3, 0, 114, 0, 0, 0, 2, 0, 0]

/-- Page 1 with one schema row for table "t" whose `rootpage` column has
serial type 2 (two bytes 0x01 0x02, value 258) and `sql` column "CREATE". -/
def leafSchemaPage : List Nat :=
  List.replicate 100 0 ++
    [13, 0, 0, 0, 1, 0, 0, 0, 0, 110,
     21, 1, 6, 23, 15, 15, 2, 25,
     116, 97, 98, 108, 101, 116, 116, 1, 2, 67, 82, 69, 65, 84, 69]

/-- Page 1 with one well-formed schema row for table "t": `rootpage` serial
type 1, value 7, `sql` "CREATE". -/
def goodSchemaPage : List Nat :=
  List.replicate 100 0 ++
    [13, 0, 0, 0, 1, 0, 0, 0, 0, 110,
     20, 1, 6, 23, 15, 15, 1, 25,
     116, 97, 98, 108, 101, 116, 116, 7, 67, 82, 69, 65, 84, 69]

set_option maxRecDepth 20000 in
/-- C2 (code evaluation): on a well-formed single-leaf page 1 the lookup
returns the row's rootpage and sql; but on a multi-page schema (page 1
interior) `findTableInfo` misreads the page with leaf offsets and aborts
with an index-out-of-range instead of descending to the child leaf; and a
`rootpage` stored with serial type 2 (value 258) is read as its first byte
(1), after which the sql column is read one byte off. -/
theorem findTableInfo_single_page_eval :
    findTableInfo goodSchemaPage "t" = some (7, "CREATE") ∧
    findTableInfo interiorSchemaPage "t" = none ∧
    findTableInfo leafSchemaPage "t" = some (1, stringOfBytes [2, 67, 82, 69, 65, 84]) := by
  refine ⟨by decide, by decide, by decide⟩

theorem leafLoop_count (page : List Nat) (ho : Nat) :
    ∀ (idxs : List Nat) (s s2 : List (Nat × List String)),
      leafLoop (instrProc fun _ _ => some true) page ho idxs s = some s2 →
      ∃ l, s2 = s ++ l ∧ l.length = idxs.length := by
  intro idxs
  induction idxs with
  | nil =>
    intro s s2 h
    rw [leafLoop] at h
    exact ⟨[], by simpa using h.symm, rfl⟩
  | cons i rest ih =>
    intro s s2 h
    rw [leafLoop] at h
    cases hpb : sliceN page (ho + 8 + 2 * i) 2 with
    | none => rw [hpb] at h; cases h
    | some pb =>
      rw [hpb] at h
      simp only at h
      by_cases hin : beNat pb ≤ page.length
      · rw [if_pos hin] at h
        cases hpr : parseRecord (page.drop (beNat pb)) with
        | none => rw [hpr] at h; cases h
        | some rv =>
          rw [hpr] at h
          simp only [instrProc, Option.map_some] at h
          rcases ih (s ++ [(rv.1, rv.2)]) s2 (by simpa using h) with ⟨l, rfl, hlen⟩
          exact ⟨(rv.1, rv.2) :: l, by simp, by simp [hlen]⟩
      · rw [if_neg hin] at h; cases h

theorem interiorLoop_count (page : List Nat) (ho : Nat)
    (recurT : Nat → List (Nat × List String) → Option (List (Nat × List String)))
    (recurC : Nat → Option Nat)
    (hrec : ∀ c s s2, recurT c s = some s2 → ∃ l, s2 = s ++ l ∧ recurC c = some l.length) :
    ∀ (idxs : List Nat) (s s2 : List (Nat × List String)),
      interiorLoop recurT page ho idxs s = some s2 →
      ∃ l, s2 = s ++ l ∧ countLoop recurC page ho idxs = some l.length := by
  intro idxs
  induction idxs with
  | nil =>
    intro s s2 h
    rw [interiorLoop] at h
    exact ⟨[], by simpa using h.symm, by rw [countLoop]; rfl⟩
  | cons i rest ih =>
    intro s s2 h
    rw [interiorLoop] at h
    cases hc : interiorChildAt page ho i with
    | none => rw [hc] at h; cases h
    | some child =>
      rw [hc] at h
      simp only at h
      cases hr : recurT child s with
      | none => rw [hr] at h; cases h
      | some s1 =>
        rw [hr] at h
        simp only at h
        rcases hrec child s s1 hr with ⟨l1, rfl, hc1⟩
        rcases ih (s ++ l1) s2 h with ⟨l2, rfl, hc2⟩
        refine ⟨l1 ++ l2, by simp, ?_⟩
        rw [countLoop, hc]
        simp [hc1, hc2]

theorem traverse_count (db : Nat → Option (List Nat)) :
    ∀ (fuel pageNum : Nat) (s s2 : List (Nat × List String)),
      traverseBTree db (instrProc fun _ _ => some true) fuel pageNum s = some s2 →
      ∃ l, s2 = s ++ l ∧ countRows db fuel pageNum = some l.length := by
  intro fuel
  induction fuel with
  | zero => intro pageNum s s2 h; cases h
  | succ fuel ih =>
    intro pageNum s s2 h
    rw [traverseBTree] at h
    rw [countRows]
    cases hdb : db pageNum with
    | none =>
      rw [hdb] at h
      exact ⟨[], by simpa using h.symm, rfl⟩
    | some page =>
      rw [hdb] at h
      dsimp only at h ⊢
      cases hpt : page.get? (if pageNum = 1 then 100 else 0) with
      | none => rw [hpt] at h; simp at h
      | some pageType =>
        rw [hpt] at h
        dsimp only at h ⊢
        cases hcc : sliceN page ((if pageNum = 1 then 100 else 0) + 3) 2 with
        | none => rw [hcc] at h; simp at h
        | some ccb =>
          rw [hcc] at h
          dsimp only at h ⊢
          by_cases h13 : pageType = 13
          · rw [if_pos h13] at h ⊢
            rcases leafLoop_count page (if pageNum = 1 then 100 else 0)
              (List.range (beNat ccb)) s s2 h with ⟨l, rfl, hlen⟩
            exact ⟨l, rfl, by rw [hlen, List.length_range]⟩
          · rw [if_neg h13] at h ⊢
            by_cases h5 : pageType = 5
            · rw [if_pos h5] at h ⊢
              cases hrm : sliceN page ((if pageNum = 1 then 100 else 0) + 8) 4 with
              | none => rw [hrm] at h; simp at h
              | some rmb =>
                rw [hrm] at h
                dsimp only at h ⊢
                cases hil : interiorLoop
                    (fun c t => traverseBTree db (instrProc fun _ _ => some true) fuel c t)
                    page (if pageNum = 1 then 100 else 0) (List.range (beNat ccb)) s with
                | none => rw [hil] at h; simp at h
                | some smid =>
                  rw [hil] at h
                  dsimp only at h
                  rcases interiorLoop_count page (if pageNum = 1 then 100 else 0)
                      (fun c t => traverseBTree db (instrProc fun _ _ => some true) fuel c t)
                      (fun c => countRows db fuel c)
                      (fun c t t2 ht => ih c t t2 ht)
                      (List.range (beNat ccb)) s smid hil with ⟨l1, rfl, hc1⟩
                  rcases ih (beNat rmb) (s ++ l1) s2 h with ⟨l2, rfl, hc2⟩
                  rw [hc1, hc2]
                  exact ⟨l1 ++ l2, by simp, by simp⟩
            · rw [if_neg h5] at h ⊢
              exact ⟨[], by simpa using h.symm, rfl⟩

/-- C8: for every database, fuel and root page, whenever the full traversal
with the always-continue visitor completes, `countRows` returns exactly the
number of visitor invocations the traversal produced — the count-only fast
path (leaf pages contribute their cell count without decoding a record)
agrees with full traversal. -/
theorem countRows_eq_visit_count (db : Nat → Option (List Nat)) (fuel pageNum : Nat)
    (visits : List (Nat × List String))
    (h : traverseVisits db (fun _ _ => some true) fuel pageNum = some visits) :
    countRows db fuel pageNum = some visits.length := by
  rcases traverse_count db fuel pageNum [] visits h with ⟨l, hl, hc⟩
  simp only [List.nil_append] at hl
  rwa [hl]

/-- Witness for C8 on the two-level example tree: traversal visits rows 1
and 2, and `countRows` returns 2. -/
theorem countRows_eq_visit_count_witness :
    countRows exDb 3 2 = some 2 := by
  have h := countRows_eq_visit_count exDb 3 2 [(1, []), (2, [])] (by decide)
  simpa using h

theorem leafLoop_stop (proc : Nat → List String → Option Bool)
    (page : List Nat) (ho : Nat) :
    ∀ (idxs : List Nat) (s l : List (Nat × List String)),
      leafLoop (instrProc proc) page ho idxs s = some l →
      ∃ new, l = s ++ new ∧ ∀ rv ∈ new.dropLast, proc rv.1 rv.2 = some true := by
  intro idxs
  induction idxs with
  | nil =>
    intro s l h
    rw [leafLoop] at h
    exact ⟨[], by simpa using h.symm, by simp⟩
  | cons i rest ih =>
    intro s l h
    rw [leafLoop] at h
    cases hpb : sliceN page (ho + 8 + 2 * i) 2 with
    | none => rw [hpb] at h; cases h
    | some pb =>
      rw [hpb] at h
      dsimp only at h
      by_cases hin : beNat pb ≤ page.length
      · rw [if_pos hin] at h
        cases hpr : parseRecord (page.drop (beNat pb)) with
        | none => rw [hpr] at h; cases h
        | some rv =>
          rw [hpr] at h
          dsimp only at h
          cases hp : proc rv.1 rv.2 with
          | none => simp only [instrProc, hp, Option.map_none] at h; cases h
          | some b =>
            simp only [instrProc, hp, Option.map_some] at h
            cases b with
            | false =>
              simp at h
              subst h
              exact ⟨[(rv.1, rv.2)], rfl, by simp⟩
            | true =>
              simp at h
              rcases ih (s ++ [(rv.1, rv.2)]) l h with ⟨new2, rfl, hall⟩
              refine ⟨(rv.1, rv.2) :: new2, by simp, ?_⟩
              rcases hn : new2 with _ | ⟨a, t⟩
              · simp
              · rw [← hn, List.dropLast_cons_of_ne_nil (by simp [hn])]
                intro rv2 hmem
                rcases List.mem_cons.mp hmem with rfl | hmem2
                · exact hp
                · exact hall rv2 hmem2
      · rw [if_neg hin] at h; cases h

/-- C3 (amended): on a leaf page, once the visitor returns false no further
cell of that page is visited — every visit except possibly the last returned
true. (The counterexample shows the stop does not extend to other pages.) -/
theorem traverse_leaf_stops_in_page (db : Nat → Option (List Nat))
    (proc : Nat → List String → Option Bool) (page : List Nat)
    (fuel pageNum : Nat) (l : List (Nat × List String))
    (hdb : db pageNum = some page)
    (hpt : page.get? (if pageNum = 1 then 100 else 0) = some 13)
    (h : traverseVisits db proc fuel pageNum = some l) :
    ∀ rv ∈ l.dropLast, proc rv.1 rv.2 = some true := by
  cases fuel with
  | zero => cases h
  | succ fuel =>
    rw [traverseVisits, traverseBTree, hdb] at h
    dsimp only at h
    rw [hpt] at h
    dsimp only at h
    cases hcc : sliceN page ((if pageNum = 1 then 100 else 0) + 3) 2 with
    | none => rw [hcc] at h; cases h
    | some ccb =>
      rw [hcc] at h
      dsimp only at h
      rw [if_pos rfl] at h
      rcases leafLoop_stop proc page (if pageNum = 1 then 100 else 0)
        (List.range (beNat ccb)) [] l h with ⟨new, rfl, hall⟩
      simpa using hall

/-- Visitor that continues on rowid 1 and stops on any other rowid. -/
def procStopAfterOne : Nat → List String → Option Bool := fun r _ => some (decide (r = 1))

/-- Witness for the amended C3 on the two-cell leaf page: the run visits
rows 1 then 2 (stopping at 2), and the theorem yields that the visit before
the last returned true. -/
theorem traverse_leaf_stops_in_page_witness :
    procStopAfterOne 1 [] = some true := by
  have h := traverse_leaf_stops_in_page dbLeaf2 procStopAfterOne leafPage2 1 3
    [(1, []), (2, [])] (by decide) (by decide) (by decide)
  exact h (1, []) (by simp)

/-- Spec-side per-row output: `none` when the row renders no line (filtered
out by the predicate), `some line` for the one line it prints. -/
def renderRow (ci : List Nat) (ipk : List Bool) (hw : Bool) (wi : Nat) (wv : String)
    (rv : Nat × List String) : Option String :=
  (lineOfRow ci ipk hw wi wv rv.1 rv.2).join

/-- Always-continue visitor that aborts exactly when the per-row rendering
would abort. -/
def bpOf (ci : List Nat) (ipk : List Bool) (hw : Bool) (wi : Nat) (wv : String) :
    Nat → List String → Option Bool :=
  fun r v => (lineOfRow ci ipk hw wi wv r v).map (fun _ => true)

theorem selectProc_char (ci : List Nat) (ipk : List Bool) (hw : Bool) (wi : Nat)
    (wv : String) (s : List String) (rowid : Nat) (vals : List String) :
    selectProc ci ipk hw wi wv s rowid vals =
      (lineOfRow ci ipk hw wi wv rowid vals).map (fun o => (s ++ o.toList, true)) := by
  unfold selectProc lineOfRow
  cases hw with
  | false =>
    rw [if_neg (by simp), if_neg (by simp)]
    cases hpl : projectLoop ipk rowid vals ci 0 <;> simp [hpl]
  | true =>
    rw [if_pos rfl, if_pos rfl]
    cases hg : vals.get? wi with
    | none => simp [hg]
    | some v =>
      simp only [hg]
      by_cases hv : v = wv
      · rw [if_neg (not_not_intro hv), if_neg (not_not_intro hv)]
        cases hpl : projectLoop ipk rowid vals ci 0 <;> simp [hpl]
      · rw [if_pos hv, if_pos hv]
        simp

theorem leafLoop_sel (ci : List Nat) (ipk : List Bool) (hw : Bool) (wi : Nat) (wv : String)
    (page : List Nat) (ho : Nat) :
    ∀ (idxs : List Nat) (s : List (Nat × List String)),
      leafLoop (selectProc ci ipk hw wi wv) page ho idxs
          (s.filterMap (renderRow ci ipk hw wi wv)) =
        (leafLoop (instrProc (bpOf ci ipk hw wi wv)) page ho idxs s).map
          (fun l => l.filterMap (renderRow ci ipk hw wi wv)) := by
  intro idxs
  induction idxs with
  | nil => intro s; simp [leafLoop]
  | cons i rest ih =>
    intro s
    rw [leafLoop, leafLoop]
    cases hpb : sliceN page (ho + 8 + 2 * i) 2 with
    | none => simp
    | some pb =>
      dsimp only
      by_cases hin : beNat pb ≤ page.length
      · rw [if_pos hin, if_pos hin]
        cases hpr : parseRecord (page.drop (beNat pb)) with
        | none => simp
        | some rv =>
          dsimp only
          rw [selectProc_char]
          cases hlr : lineOfRow ci ipk hw wi wv rv.1 rv.2 with
          | none => simp [instrProc, bpOf, hlr]
          | some o =>
            have hjoin : renderRow ci ipk hw wi wv rv = o := by
              simp [renderRow, hlr, Option.join]
            have hsingle : List.filterMap (renderRow ci ipk hw wi wv) [rv] = o.toList := by
              rw [show List.filterMap (renderRow ci ipk hw wi wv) [rv] =
                  (renderRow ci ipk hw wi wv rv).toList from rfl, hjoin]
            have hstep := ih (s ++ [rv])
            simp only [instrProc, bpOf, hlr]
            simp only [Option.map_some', Function.comp]
            rw [show List.filterMap (renderRow ci ipk hw wi wv) s ++ o.toList =
                List.filterMap (renderRow ci ipk hw wi wv) (s ++ [rv]) from by
              rw [List.filterMap_append, hsingle]]
            simpa using hstep
      · rw [if_neg hin, if_neg hin]
        simp

theorem interiorLoop_sel (ci : List Nat) (ipk : List Bool) (hw : Bool) (wi : Nat)
    (wv : String) (page : List Nat) (ho : Nat)
    (recurS : Nat → List String → Option (List String))
    (recurI : Nat → List (Nat × List String) → Option (List (Nat × List String)))
    (hrec : ∀ c s, recurS c (s.filterMap (renderRow ci ipk hw wi wv)) =
      (recurI c s).map (fun l => l.filterMap (renderRow ci ipk hw wi wv))) :
    ∀ (idxs : List Nat) (s : List (Nat × List String)),
      interiorLoop recurS page ho idxs (s.filterMap (renderRow ci ipk hw wi wv)) =
        (interiorLoop recurI page ho idxs s).map
          (fun l => l.filterMap (renderRow ci ipk hw wi wv)) := by
  intro idxs
  induction idxs with
  | nil => intro s; simp [interiorLoop]
  | cons i rest ih =>
    intro s
    rw [interiorLoop, interiorLoop]
    cases hc : interiorChildAt page ho i with
    | none => simp
    | some child =>
      dsimp only
      rw [hrec child s]
      cases hr : recurI child s with
      | none => simp
      | some s1 =>
        simp only [Option.map_some']
        exact ih s1

theorem traverse_sel (db : Nat → Option (List Nat)) (ci : List Nat) (ipk : List Bool)
    (hw : Bool) (wi : Nat) (wv : String) :
    ∀ (fuel pageNum : Nat) (s : List (Nat × List String)),
      traverseBTree db (selectProc ci ipk hw wi wv) fuel pageNum
          (s.filterMap (renderRow ci ipk hw wi wv)) =
        (traverseBTree db (instrProc (bpOf ci ipk hw wi wv)) fuel pageNum s).map
          (fun l => l.filterMap (renderRow ci ipk hw wi wv)) := by
  intro fuel
  induction fuel with
  | zero => intro pageNum s; simp [traverseBTree]
  | succ fuel ih =>
    intro pageNum s
    rw [traverseBTree, traverseBTree]
    cases hdb : db pageNum with
    | none => simp
    | some page =>
      dsimp only
      cases hpt : page.get? (if pageNum = 1 then 100 else 0) with
      | none => simp
      | some pageType =>
        dsimp only
        cases hcc : sliceN page ((if pageNum = 1 then 100 else 0) + 3) 2 with
        | none => simp
        | some ccb =>
          dsimp only
          by_cases h13 : pageType = 13
          · rw [if_pos h13, if_pos h13]
            exact leafLoop_sel ci ipk hw wi wv page (if pageNum = 1 then 100 else 0)
              (List.range (beNat ccb)) s
          · rw [if_neg h13, if_neg h13]
            by_cases h5 : pageType = 5
            · rw [if_pos h5, if_pos h5]
              cases hrm : sliceN page ((if pageNum = 1 then 100 else 0) + 8) 4 with
              | none => simp
              | some rmb =>
                dsimp only
                rw [interiorLoop_sel ci ipk hw wi wv page (if pageNum = 1 then 100 else 0)
                  (fun c t => traverseBTree db (selectProc ci ipk hw wi wv) fuel c t)
                  (fun c t => traverseBTree db (instrProc (bpOf ci ipk hw wi wv)) fuel c t)
                  (fun c t => ih c t) (List.range (beNat ccb)) s]
                cases hil : interiorLoop
                    (fun c t => traverseBTree db (instrProc (bpOf ci ipk hw wi wv)) fuel c t)
                    page (if pageNum = 1 then 100 else 0) (List.range (beNat ccb)) s with
                | none => simp
                | some smid =>
                  simp only [Option.map_some']
                  exact ih (beNat rmb) smid
            · rw [if_neg h5, if_neg h5]
              simp

/-- C4: whenever the instrumented traversal completes, `selectRows` emits
exactly one line per row passing the predicate, in traversal
(ascending-rowid) order: its output is the per-row rendering `renderRow` —
textual equality of the predicate column against the literal, skipped rows
contributing nothing, projected columns in requested order with the decimal
rowid substituted at INTEGER-PRIMARY-KEY-alias positions, joined by `"|"` —
filter-mapped over the visited rows. -/
theorem selectRows_renders (db : Nat → Option (List Nat)) (fuel rootpage : Nat)
    (columnIndices : List Nat) (columnNames : List String) (createTableSQL : String)
    (hasWhere : Bool) (whereColumnIndex : Nat) (whereValue : String)
    (visits : List (Nat × List String))
    (h : traverseVisits db
        (bpOf columnIndices (columnNames.map (isIntegerPrimaryKey createTableSQL))
          hasWhere whereColumnIndex whereValue) fuel rootpage = some visits) :
    selectRows db fuel rootpage columnIndices columnNames createTableSQL hasWhere
        whereColumnIndex whereValue =
      some (visits.filterMap (renderRow columnIndices
        (columnNames.map (isIntegerPrimaryKey createTableSQL))
        hasWhere whereColumnIndex whereValue)) := by
  have hts := traverse_sel db columnIndices
    (columnNames.map (isIntegerPrimaryKey createTableSQL)) hasWhere whereColumnIndex
    whereValue fuel rootpage []
  rw [traverseVisits] at h
  rw [h] at hts
  simp only [List.filterMap_nil, Option.map_some'] at hts
  unfold selectRows
  exact hts

/-- Leaf page at page 5 with two one-column text rows: rowid 1 value "red",
rowid 2 value "blu". -/
def colorLeafPage : List Nat :=
  [13, 0, 0, 0, 2, 0, 0, 0, 0, 12, 0, 19,
   5, 1, 2, 19, 114, 101, 100,
   5, 2, 2, 19, 98, 108, 117]

def dbColors : Nat → Option (List Nat) := fun n =>
  if n = 5 then some colorLeafPage else none

set_option maxRecDepth 20000 in
/-- Witness for C4: `SELECT color FROM t WHERE color = 'red'` over the
two-row page prints exactly one line "red". -/
theorem selectRows_renders_witness :
    selectRows dbColors 1 5 [0] ["color"] "CREATE TABLE t (color TEXT)" true 0 "red" =
      some ["red"] := by
  have h := selectRows_renders dbColors 1 5 [0] ["color"] "CREATE TABLE t (color TEXT)"
    true 0 "red" [(1, ["red"]), (2, ["blu"])] (by decide)
  rw [h]
  decide

/-- Does one comma-separated segment's first whitespace token match the
requested column name case-insensitively? Stated from the spec's words for
§4.8. -/
def segMatches (columnName : List Char) (colDef : List Char) : Bool :=
  match fieldsL (trimL colDef) with
  | [] => false
  | colName :: _ => eqFold colName columnName

theorem gciLoop_eq_findIdx : ∀ (cols : List (List Char)) (name : List Char) (i : Nat),
    gciLoop cols name i =
      match List.findIdx? (segMatches name) cols i with
      | some j => (j : Int)
      | none => -1 := by
  intro cols
  induction cols with
  | nil => intro name i; rfl
  | cons colDef rest ih =>
    intro name i
    rw [gciLoop, List.findIdx?_cons]
    cases hf : fieldsL (trimL colDef) with
    | nil =>
      rw [show segMatches name colDef = false from by rw [segMatches, hf]]
      simp only [Bool.false_eq_true, if_false]
      exact ih name (i + 1)
    | cons colName restTok =>
      rw [show segMatches name colDef = eqFold colName name from by rw [segMatches, hf]]
      dsimp only
      by_cases he : eqFold colName name = true
      · rw [if_pos he, if_pos he]
      · rw [if_neg he, if_neg he]
        exact ih name (i + 1)

theorem startsWithL_iff : ∀ needle hay : List Char,
    startsWithL needle hay = true ↔ hay.take needle.length = needle := by
  intro needle
  induction needle with
  | nil => intro hay; simp [startsWithL]
  | cons a as ih =>
    intro hay
    cases hay with
    | nil => simp [startsWithL]
    | cons b bs =>
      rw [startsWithL]
      simp only [List.length_cons, List.take_succ_cons, List.cons.injEq,
        Bool.and_eq_true, beq_iff_eq]
      rw [ih bs]
      constructor
      · rintro ⟨rfl, h⟩; exact ⟨rfl, h⟩
      · rintro ⟨rfl, h⟩; exact ⟨rfl, h⟩

theorem containsSubL_iff : ∀ hay needle : List Char,
    containsSubL hay needle = true ↔
      ∃ i, (hay.drop i).take needle.length = needle := by
  intro hay
  induction hay with
  | nil =>
    intro needle
    rw [containsSubL]
    constructor
    · intro h
      exact ⟨0, by simpa [List.isEmpty_iff] using (List.isEmpty_iff.mp (by simpa using h)).symm⟩
    · rintro ⟨i, hi⟩
      simp at hi
      simp [← hi, List.isEmpty_iff]
  | cons c t ih =>
    intro needle
    rw [containsSubL]
    simp only [Bool.or_eq_true]
    rw [startsWithL_iff, ih]
    constructor
    · rintro (h | ⟨i, hi⟩)
      · exact ⟨0, by simpa using h⟩
      · exact ⟨i + 1, by simpa using hi⟩
    · rintro ⟨i, hi⟩
      cases i with
      | zero => exact Or.inl (by simpa using hi)
      | succ i => exact Or.inr ⟨i, by simpa using hi⟩

set_option maxRecDepth 40000 in
/-- C9: column resolution from CREATE TABLE text. On the example schema,
`indexOf "name" = 1`, `id` is an INTEGER-PRIMARY-KEY alias and `name` is
not; in general the per-segment loop returns the ordinal of the first
case-insensitively matching segment (`findIdx?` over the comma-split
segments) and `-1` otherwise, and the alias test holds exactly when the
lower-cased SQL text contains the literal substring
`"<lower(name)> integer primary key"`. -/
theorem column_resolution_spec :
    getColumnIndex "CREATE TABLE t (id INTEGER PRIMARY KEY, name TEXT)" "name" = some 1 ∧
    isIntegerPrimaryKey "CREATE TABLE t (id INTEGER PRIMARY KEY, name TEXT)" "id" = true ∧
    isIntegerPrimaryKey "CREATE TABLE t (id INTEGER PRIMARY KEY, name TEXT)" "name" = false ∧
    (∀ (cols : List (List Char)) (name : List Char),
      gciLoop cols name 0 =
        match List.findIdx? (segMatches name) cols with
        | some j => (j : Int)
        | none => -1) ∧
    (∀ sql name : String, isIntegerPrimaryKey sql name = true ↔
      ∃ i, ((lowerL sql.toList).drop i).take
          (lowerL name.toList ++ (" integer primary key").toList).length =
        lowerL name.toList ++ (" integer primary key").toList) := by
  refine ⟨by decide, by decide, by decide, ?_, ?_⟩
  · intro cols name
    exact gciLoop_eq_findIdx cols name 0
  · intro sql name
    rw [isIntegerPrimaryKey, containsSubL_iff]
